import Mathlib

/-!
Shallow embedding of `src/week01_undirectedgraphs.py`: an undirected graph
with an adjacency-list representation (`Graph`), an adjacency-matrix variant
(`AdjMatrixGraph`), and the edge-list file loader (`read_array_of_edges`).

Python exceptions are modelled by `Except Err`.  A text file is modelled as
the list of its lines (`readline` past the end of file returns the empty
string, modelled by `List.getD _ _ ""`), and Python's `int(...)` conversion by
`String.toInt?` after trimming whitespace.  Python `list.append` on a valid
index is `appendAt`; numpy cell assignment `m[i][j] = True` is `setCell`.
Vertices are Python integers, hence `Int`; the internal list index taken by
a validated vertex `v` (so `0 ≤ v`) is `v.toNat`.
-/

/-- Error taxonomy: `ValueError` raised for a negative count at construction
(numpy negative dimensions) is `invalidArgument`; the explicit negative-count
checks of the loader are `invalidFormat`; a failed `int` conversion or tuple
unpacking in the loader is `parseError`; `validate_vertex` failure is
`outOfRange`. -/
inductive Err where
  | invalidArgument
  | outOfRange
  | invalidFormat
  | parseError
deriving DecidableEq, Repr

/-- Adjacency-list graph: fields `V`, `E`, `_adj` of the Python class. -/
structure Graph where
  V : Int
  E : Nat
  adj : List (List Int)
deriving DecidableEq, Repr

/-- `Graph.__init__`: `self.V = V; self.E = 0;` then `range(V)` many empty
lists are appended (for negative `V`, `range` is empty, so `_adj = []` and no
exception is raised). -/
def Graph.init (V : Int) : Graph :=
  { V := V, E := 0, adj := List.replicate V.toNat [] }

/-- `self._adj[i].append(x)` for a list-of-lists, at an in-range index `i`
(out of range, Python would raise; `add_edge` only uses validated indices,
where `i < adj.length`; beyond the length this is the identity). -/
def appendAt : List (List Int) → Nat → Int → List (List Int)
  | [], _, _ => []
  | a :: l, 0, x => (a ++ [x]) :: l
  | a :: l, Nat.succ n, x => a :: appendAt l n x

/-- `Graph.validate_vertex`: raises `ValueError` (`outOfRange`) unless
`0 <= v < self.V`. -/
def Graph.validate_vertex (g : Graph) (v : Int) : Except Err Unit :=
  if v < 0 ∨ g.V ≤ v then Except.error Err.outOfRange else Except.ok ()

/-- `Graph.add_edge`: validate both endpoints, `self.E += 1`, then
`if v != w: self.adj = (w, v)` (append `v` to `w`'s list) and
`self.adj = (v, w)` (append `w` to `v`'s list), via the property setter. -/
def Graph.add_edge (g : Graph) (v w : Int) : Except Err Graph := do
  let _ ← g.validate_vertex v
  let _ ← g.validate_vertex w
  let g1 : Graph := { g with E := g.E + 1 }
  let g2 : Graph := if v ≠ w then { g1 with adj := appendAt g1.adj w.toNat v } else g1
  Except.ok { g2 with adj := appendAt g2.adj v.toNat w }

/-- The adjacency list of vertex index `i` (Python `self.adj[i]`). -/
def Graph.adjAt (g : Graph) (i : Nat) : List Int :=
  g.adj.getD i []

/-- `Graph.degree`: validate `v`, return `len(self.adj[v])`. -/
def Graph.degree (g : Graph) (v : Int) : Except Err Nat := do
  let _ ← g.validate_vertex v
  Except.ok (g.adjAt v.toNat).length

/-- `Graph.max_degree`: `max = 0; for v in range(V): if degree(v) > max: max = degree(v)`.
(`degree` never raises here: each `v` in `range(V)` is a valid vertex.) -/
def Graph.max_degree (g : Graph) : Nat :=
  (List.range g.V.toNat).foldl
    (fun m v => if (g.adjAt v).length > m then (g.adjAt v).length else m) 0

/-- `Graph.self_loops`: `for v in range(V): for w in adj[v]: if v == w: count += 1`. -/
def Graph.self_loops (g : Graph) : Nat :=
  (List.range g.V.toNat).foldl
    (fun c v => c + (g.adjAt v).countP (fun w => w == (v : Int))) 0

/-- Decimal digit value of a character, `none` when not a digit. -/
def digit? (c : Char) : Option Nat :=
  if c.isDigit then some (c.toNat - 48) else none

/-- Accumulate a run of decimal digits; any non-digit fails. -/
def natOfDigitsAux : List Char → Nat → Option Nat
  | [], acc => some acc
  | c :: cs, acc =>
    match digit? c with
    | none => none
    | some d => natOfDigitsAux cs (acc * 10 + d)

/-- A non-empty all-digit character run as a `Nat`. -/
def natOfDigits : List Char → Option Nat
  | [] => none
  | c :: cs => natOfDigitsAux (c :: cs) 0

/-- Signed decimal integer: optional single `+` or `-` then digits. -/
def intOfChars : List Char → Option Int
  | [] => none
  | c :: cs =>
    if c = '-' then (natOfDigits cs).map (fun n => -(n : Int))
    else if c = '+' then (natOfDigits cs).map (fun n => (n : Int))
    else (natOfDigits (c :: cs)).map (fun n => (n : Int))

/-- Drop leading whitespace. -/
def dropWs : List Char → List Char
  | [] => []
  | c :: cs => if c.isWhitespace then dropWs cs else c :: cs

/-- Strip surrounding whitespace. -/
def trimChars (l : List Char) : List Char :=
  (dropWs (dropWs l).reverse).reverse

/-- Python `int(s)`: strips surrounding whitespace, optional sign, decimal
digits; `none` models the `ValueError` on anything else (digit-group
underscores, accepted by Python, are not modelled — no claim involves them). -/
def pyInt (s : String) : Option Int :=
  intOfChars (trimChars s.data)

/-- Python `s.split()`: split on whitespace runs, dropping empty tokens;
`tok` is the current token accumulated in reverse. -/
def splitWsAux : List Char → List Char → List (List Char)
  | [], [] => []
  | [], t :: tok => ((t :: tok).reverse) :: []
  | c :: cs, tok =>
    if c.isWhitespace then
      match tok with
      | [] => splitWsAux cs []
      | t :: tok => ((t :: tok).reverse) :: splitWsAux cs []
    else splitWsAux cs (c :: tok)

/-- Python `s.split()` on a line. -/
def pyTokens (s : String) : List (List Char) :=
  splitWsAux s.data []

/-- `v, w = map(int, line.split())`: succeeds exactly when the line has two
tokens and both convert; any failure is a `ValueError` (`none`). -/
def parseEdgeLine (s : String) : Option (Int × Int) :=
  match pyTokens s with
  | [a, b] =>
    match intOfChars a, intOfChars b with
    | some v, some w => some (v, w)
    | _, _ => none
  | _ => none

/-- The `for _ in range(E)` loop of `read_array_of_edges`, reading edge lines
starting at line index `idx`. -/
def readEdges (lines : List String) (idx : Nat) : Nat → Except Err (List (Int × Int))
  | 0 => Except.ok []
  | Nat.succ n =>
    match parseEdgeLine (lines.getD idx "") with
    | none => Except.error Err.parseError
    | some e =>
      match readEdges lines (idx + 1) n with
      | Except.error err => Except.error err
      | Except.ok rest => Except.ok (e :: rest)

/-- `read_array_of_edges`: line 0 is `V` (negative rejected), line 1 is `E`
(negative rejected), then `E` edge lines.  Returns `(edges, V)`. -/
def read_array_of_edges (lines : List String) : Except Err (List (Int × Int) × Int) :=
  match pyInt (lines.getD 0 "") with
  | none => Except.error Err.parseError
  | some V =>
    if V < 0 then Except.error Err.invalidFormat
    else
      match pyInt (lines.getD 1 "") with
      | none => Except.error Err.parseError
      | some E =>
        if E < 0 then Except.error Err.invalidFormat
        else
          match readEdges lines 2 E.toNat with
          | Except.error err => Except.error err
          | Except.ok edges => Except.ok (edges, V)

/-- A sequence of `add_edge` calls, in order; the first exception aborts. -/
def Graph.add_edges (g : Graph) : List (Int × Int) → Except Err Graph
  | [] => Except.ok g
  | e :: es =>
    match g.add_edge e.1 e.2 with
    | Except.error err => Except.error err
    | Except.ok g' => Graph.add_edges g' es

/-- `Graph.load`: run the loader, construct `cls(V)`, then `add_edge` per
parsed pair in order. -/
def Graph.load (lines : List String) : Except Err Graph :=
  match read_array_of_edges lines with
  | Except.error e => Except.error e
  | Except.ok (edges, V) => Graph.add_edges (Graph.init V) edges

/-- Adjacency-matrix graph: `V`, `E` from the base class, `_adj` replaced by a
`V × V` boolean matrix (rows as lists). -/
structure AdjMatrixGraph where
  V : Int
  E : Nat
  adj : List (List Bool)
deriving DecidableEq, Repr

/-- `AdjMatrixGraph.__init__`: `super().__init__(V)` then
`self._adj = np.zeros((V, V), dtype=bool)`; numpy raises `ValueError`
(`invalidArgument`) on negative dimensions. -/
def AdjMatrixGraph.init (V : Int) : Except Err AdjMatrixGraph :=
  if V < 0 then Except.error Err.invalidArgument
  else Except.ok
    { V := V, E := 0, adj := List.replicate V.toNat (List.replicate V.toNat false) }

/-- `row[j] = True` at an in-range index (identity beyond the length; the
inherited `add_edge` only uses validated indices). -/
def setTrue : List Bool → Nat → List Bool
  | [], _ => []
  | _ :: l, 0 => true :: l
  | b :: l, Nat.succ j => b :: setTrue l j

/-- `self._adj[i][j] = True` for the boolean matrix. -/
def setCell : List (List Bool) → Nat → Nat → List (List Bool)
  | [], _, _ => []
  | r :: l, 0, j => setTrue r j :: l
  | r :: l, Nat.succ i, j => r :: setCell l i j

/-- Inherited `validate_vertex` on the matrix variant. -/
def AdjMatrixGraph.validate_vertex (g : AdjMatrixGraph) (v : Int) : Except Err Unit :=
  if v < 0 ∨ g.V ≤ v then Except.error Err.outOfRange else Except.ok ()

/-- Inherited `Graph.add_edge`, dispatching to the matrix `adj` setter:
`self._adj[edge[0]][edge[1]] = True`. -/
def AdjMatrixGraph.add_edge (g : AdjMatrixGraph) (v w : Int) :
    Except Err AdjMatrixGraph := do
  let _ ← g.validate_vertex v
  let _ ← g.validate_vertex w
  let g1 : AdjMatrixGraph := { g with E := g.E + 1 }
  let g2 : AdjMatrixGraph :=
    if v ≠ w then { g1 with adj := setCell g1.adj w.toNat v.toNat } else g1
  Except.ok { g2 with adj := setCell g2.adj v.toNat w.toNat }

/-- Row `i` of the matrix (Python `self.adj[i]`). -/
def AdjMatrixGraph.rowAt (g : AdjMatrixGraph) (i : Nat) : List Bool :=
  g.adj.getD i []

/-- `AdjMatrixGraph.degree`: validate `v`, return `self.adj[v].sum()` —
the number of `True` cells in row `v`. -/
def AdjMatrixGraph.degree (g : AdjMatrixGraph) (v : Int) : Except Err Nat := do
  let _ ← g.validate_vertex v
  Except.ok ((g.rowAt v.toNat).countP (fun b => b))

/-- Inherited `max_degree`, dispatching to the matrix `degree`. -/
def AdjMatrixGraph.max_degree (g : AdjMatrixGraph) : Nat :=
  (List.range g.V.toNat).foldl
    (fun m v =>
      if (g.rowAt v).countP (fun b => b) > m then (g.rowAt v).countP (fun b => b) else m) 0

/-- `AdjMatrixGraph.self_loops`: `for v in range(V): if adj[v][v]: count += 1`. -/
def AdjMatrixGraph.self_loops (g : AdjMatrixGraph) : Nat :=
  (List.range g.V.toNat).foldl
    (fun c v => if (g.rowAt v).getD v false then c + 1 else c) 0

/-- A sequence of matrix `add_edge` calls, in order. -/
def AdjMatrixGraph.add_edges (g : AdjMatrixGraph) :
    List (Int × Int) → Except Err AdjMatrixGraph
  | [] => Except.ok g
  | e :: es =>
    match g.add_edge e.1 e.2 with
    | Except.error err => Except.error err
    | Except.ok g' => AdjMatrixGraph.add_edges g' es

/-- `AdjMatrixGraph.load`: loader, then `cls(V)`, then `add_edge` per pair. -/
def AdjMatrixGraph.load (lines : List String) : Except Err AdjMatrixGraph :=
  match read_array_of_edges lines with
  | Except.error e => Except.error e
  | Except.ok (edges, V) =>
    match AdjMatrixGraph.init V with
    | Except.error e => Except.error e
    | Except.ok g0 => AdjMatrixGraph.add_edges g0 edges

deriving instance DecidableEq for Except

/-- Spec §3 invariant: every adjacency-list entry is a valid vertex index. -/
def Graph.entries_valid (g : Graph) : Prop :=
  ∀ r ∈ g.adj, ∀ y ∈ r, 0 ≤ y ∧ y < g.V

/-- Well-formed matrix shape: `V.toNat` rows, each of width `V.toNat`. -/
def AdjMatrixGraph.wf (g : AdjMatrixGraph) : Prop :=
  g.adj.length = g.V.toNat ∧ ∀ i, i < g.V.toNat → (g.adj.getD i []).length = g.V.toNat

/-! ### Basic lemmas about the adjacency-storage primitives -/

theorem appendAt_length (x : Int) :
    ∀ (l : List (List Int)) (i : Nat), (appendAt l i x).length = l.length := by
  intro l
  induction l with
  | nil => intro i; cases i <;> simp [appendAt]
  | cons a l ih => intro i; cases i <;> simp [appendAt, ih]

theorem appendAt_getD_self (x : Int) :
    ∀ (l : List (List Int)) (i : Nat), i < l.length →
      (appendAt l i x).getD i [] = l.getD i [] ++ [x] := by
  intro l
  induction l with
  | nil => intro i h; simp at h
  | cons a l ih =>
    intro i h
    cases i with
    | zero => simp [appendAt]
    | succ n => simpa [appendAt] using ih n (by simpa using h)

theorem appendAt_getD_ne (x : Int) :
    ∀ (l : List (List Int)) (i j : Nat), j ≠ i →
      (appendAt l i x).getD j [] = l.getD j [] := by
  intro l
  induction l with
  | nil => intro i j _; cases i <;> simp [appendAt]
  | cons a l ih =>
    intro i j hne
    cases i with
    | zero =>
      cases j with
      | zero => exact absurd rfl hne
      | succ m => simp [appendAt]
    | succ n =>
      cases j with
      | zero => simp [appendAt]
      | succ m =>
        simpa [appendAt] using ih n m (fun h => hne (by omega))

theorem mem_appendAt (x : Int) :
    ∀ (l : List (List Int)) (i : Nat) (r : List Int), r ∈ appendAt l i x →
      ∀ y ∈ r, (∃ r0 ∈ l, y ∈ r0) ∨ y = x := by
  intro l
  induction l with
  | nil => intro i r hr; cases i <;> simp [appendAt] at hr
  | cons a l ih =>
    intro i r hr y hy
    cases i with
    | zero =>
      simp only [appendAt, List.mem_cons] at hr
      rcases hr with rfl | hr
      · rcases List.mem_append.mp hy with h | h
        · exact Or.inl ⟨a, List.mem_cons_self a l, h⟩
        · exact Or.inr (by simpa using h)
      · exact Or.inl ⟨r, List.mem_cons_of_mem a hr, hy⟩
    | succ n =>
      simp only [appendAt, List.mem_cons] at hr
      rcases hr with rfl | hr
      · exact Or.inl ⟨r, List.mem_cons_self r l, hy⟩
      · rcases ih n r hr y hy with ⟨r0, hr0, hy0⟩ | h
        · exact Or.inl ⟨r0, List.mem_cons_of_mem a hr0, hy0⟩
        · exact Or.inr h

theorem setTrue_length : ∀ (l : List Bool) (j : Nat), (setTrue l j).length = l.length := by
  intro l
  induction l with
  | nil => intro j; cases j <;> simp [setTrue]
  | cons b l ih => intro j; cases j <;> simp [setTrue, ih]

theorem setTrue_getD_self : ∀ (l : List Bool) (j : Nat), j < l.length →
    (setTrue l j).getD j false = true := by
  intro l
  induction l with
  | nil => intro j h; simp at h
  | cons b l ih =>
    intro j h
    cases j with
    | zero => simp [setTrue]
    | succ m => simpa [setTrue] using ih m (by simpa using h)

theorem setTrue_getD_ne : ∀ (l : List Bool) (i j : Nat), i ≠ j →
    (setTrue l j).getD i false = l.getD i false := by
  intro l
  induction l with
  | nil => intro i j _; cases j <;> simp [setTrue]
  | cons b l ih =>
    intro i j hne
    cases j with
    | zero =>
      cases i with
      | zero => exact absurd rfl hne
      | succ m => simp [setTrue]
    | succ n =>
      cases i with
      | zero => simp [setTrue]
      | succ m => simpa [setTrue] using ih m n (fun h => hne (by omega))

theorem setTrue_eq_self : ∀ (l : List Bool) (j : Nat), l.getD j false = true →
    setTrue l j = l := by
  intro l
  induction l with
  | nil => intro j h; simp at h
  | cons b l ih =>
    intro j h
    cases j with
    | zero => simp_all [setTrue]
    | succ m => simp only [setTrue]; rw [ih m (by simpa using h)]

theorem countP_setTrue : ∀ (l : List Bool) (j : Nat), j < l.length →
    (setTrue l j).countP (fun b => b) =
      l.countP (fun b => b) + (if l.getD j false then 0 else 1) := by
  intro l
  induction l with
  | nil => intro j h; simp at h
  | cons b l ih =>
    intro j h
    cases j with
    | zero => cases b <;> simp [setTrue, List.countP_cons]
    | succ m =>
      have := ih m (by simpa using h)
      cases b
      · simp [setTrue, List.countP_cons, this]
      · simp [setTrue, List.countP_cons, this]; omega

theorem setCell_length (j : Nat) :
    ∀ (m : List (List Bool)) (i : Nat), (setCell m i j).length = m.length := by
  intro m
  induction m with
  | nil => intro i; cases i <;> simp [setCell]
  | cons r m ih => intro i; cases i <;> simp [setCell, ih]

theorem setCell_getD_self (j : Nat) :
    ∀ (m : List (List Bool)) (i : Nat), i < m.length →
      (setCell m i j).getD i [] = setTrue (m.getD i []) j := by
  intro m
  induction m with
  | nil => intro i h; simp at h
  | cons r m ih =>
    intro i h
    cases i with
    | zero => simp [setCell]
    | succ n => simpa [setCell] using ih n (by simpa using h)

theorem setCell_getD_ne (j : Nat) :
    ∀ (m : List (List Bool)) (i k : Nat), k ≠ i →
      (setCell m i j).getD k [] = m.getD k [] := by
  intro m
  induction m with
  | nil => intro i k _; cases i <;> simp [setCell]
  | cons r m ih =>
    intro i k hne
    cases i with
    | zero =>
      cases k with
      | zero => exact absurd rfl hne
      | succ n => simp [setCell]
    | succ n =>
      cases k with
      | zero => simp [setCell]
      | succ p => simpa [setCell] using ih n p (fun h => hne (by omega))

theorem getD_replicate {α : Type} (x d : α) :
    ∀ (n i : Nat), (List.replicate n x).getD i d = if i < n then x else d := by
  intro n
  induction n with
  | zero => intro i; simp [List.replicate]
  | succ m ih =>
    intro i
    cases i with
    | zero => simp [List.replicate]
    | succ p => simpa [List.replicate, Nat.succ_lt_succ_iff] using ih p

/-! ### Fold-to-sum conversions and sums over `List.range` -/

theorem foldl_add_eq {α : Type} (f : α → Nat) :
    ∀ (l : List α) (a : Nat), l.foldl (fun c v => c + f v) a = a + (l.map f).sum := by
  intro l
  induction l with
  | nil => intro a; simp
  | cons x l ih => intro a; simp [ih, Nat.add_assoc]

theorem foldl_count_eq {α : Type} (p : α → Bool) :
    ∀ (l : List α) (a : Nat),
      l.foldl (fun c v => if p v then c + 1 else c) a =
        a + (l.map (fun v => if p v then 1 else 0)).sum := by
  intro l
  induction l with
  | nil => intro a; simp
  | cons x l ih =>
    intro a
    by_cases h : p x <;> simp [h, ih, Nat.add_assoc]

theorem sum_map_range_congr (f f' : Nat → Nat) :
    ∀ (n : Nat), (∀ i, i < n → f' i = f i) →
      ((List.range n).map f').sum = ((List.range n).map f).sum := by
  intro n
  induction n with
  | zero => intro _; simp
  | succ m ih =>
    intro h
    have hm : f' m = f m := h m (Nat.lt_succ_self m)
    simp [List.range_succ, ih (fun i hi => h i (Nat.lt_succ_of_lt hi)), hm]

theorem sum_map_range_update (f f' : Nat → Nat) (a d : Nat) :
    ∀ (n : Nat), a < n → (∀ i, i < n → i ≠ a → f' i = f i) → f' a = f a + d →
      ((List.range n).map f').sum = ((List.range n).map f).sum + d := by
  intro n
  induction n with
  | zero => intro h; omega
  | succ m ih =>
    intro ha hne heq
    rcases Nat.lt_succ_iff_lt_or_eq.mp ha with h | rfl
    · have hm : f' m = f m := hne m (Nat.lt_succ_self m) (by omega)
      have := ih h (fun i hi hia => hne i (Nat.lt_succ_of_lt hi) hia) heq
      simp [List.range_succ, this, hm]
      omega
    · have : ∀ i, i < a → f' i = f i := fun i hi => hne i (Nat.lt_succ_of_lt hi) (by omega)
      simp [List.range_succ, sum_map_range_congr f f' a this, heq]
      omega

theorem foldl_max_spec (f : Nat → Nat) :
    ∀ (l : List Nat) (a : Nat),
      (a ≤ l.foldl (fun m v => if f v > m then f v else m) a) ∧
      (∀ v ∈ l, f v ≤ l.foldl (fun m v => if f v > m then f v else m) a) ∧
      (l.foldl (fun m v => if f v > m then f v else m) a = a ∨
        ∃ v ∈ l, f v = l.foldl (fun m v => if f v > m then f v else m) a) := by
  intro l
  induction l with
  | nil => intro a; exact ⟨Nat.le_refl a, by simp, Or.inl rfl⟩
  | cons x l ih =>
    intro a
    have step : (if f x > a then f x else a) = max a (f x) := by
      rcases Nat.lt_or_ge a (f x) with h | h
      · simp [h, Nat.max_eq_right (Nat.le_of_lt h)]
      · have : ¬ f x > a := by omega
        simp [this, Nat.max_eq_left h]
    obtain ⟨h1, h2, h3⟩ := ih (if f x > a then f x else a)
    refine ⟨?_, ?_, ?_⟩
    · calc a ≤ max a (f x) := Nat.le_max_left a (f x)
        _ ≤ _ := by rw [← step] at *; simpa using h1
    · intro v hv
      rcases List.mem_cons.mp hv with rfl | hv
      · calc f v ≤ max a (f v) := Nat.le_max_right a (f v)
          _ ≤ _ := by rw [← step] at *; simpa using h1
      · simpa using h2 v hv
    · rcases h3 with h | ⟨v, hv, hveq⟩
      · rcases Nat.lt_or_ge a (f x) with hax | hax
        · refine Or.inr ⟨x, List.mem_cons_self x l, ?_⟩
          simpa [hax] using h.symm
        · have : ¬ f x > a := by omega
          refine Or.inl ?_
          simpa [this] using h
      · exact Or.inr ⟨v, List.mem_cons_of_mem x hv, by simpa using hveq⟩

/-! ### `add_edge` characterizations, list variant -/

theorem Graph.add_edge_ok (g : Graph) (v w : Int)
    (hv : 0 ≤ v ∧ v < g.V) (hw : 0 ≤ w ∧ w < g.V) :
    g.add_edge v w = Except.ok
      { V := g.V, E := g.E + 1,
        adj := appendAt (if v ≠ w then appendAt g.adj w.toNat v else g.adj) v.toNat w } := by
  have h1 : ¬ (v < 0 ∨ g.V ≤ v) := by omega
  have h2 : ¬ (w < 0 ∨ g.V ≤ w) := by omega
  by_cases hvw : v = w <;>
    simp [Graph.add_edge, Graph.validate_vertex, h1, h2, hvw, Bind.bind, Except.bind]

theorem Graph.add_edge_err (g : Graph) (v w : Int)
    (h : ¬ (0 ≤ v ∧ v < g.V) ∨ ¬ (0 ≤ w ∧ w < g.V)) :
    g.add_edge v w = Except.error Err.outOfRange := by
  by_cases h1 : v < 0 ∨ g.V ≤ v
  · simp [Graph.add_edge, Graph.validate_vertex, h1, Bind.bind, Except.bind]
  · have h2 : w < 0 ∨ g.V ≤ w := by omega
    simp [Graph.add_edge, Graph.validate_vertex, h1, h2, Bind.bind, Except.bind]

/-! ### `add_edge` characterizations, matrix variant -/

theorem AdjMatrixGraph.matrix_add_edge_ok (g : AdjMatrixGraph) (v w : Int)
    (hv : 0 ≤ v ∧ v < g.V) (hw : 0 ≤ w ∧ w < g.V) :
    g.add_edge v w = Except.ok
      { V := g.V, E := g.E + 1,
        adj := setCell (if v ≠ w then setCell g.adj w.toNat v.toNat else g.adj)
          v.toNat w.toNat } := by
  have h1 : ¬ (v < 0 ∨ g.V ≤ v) := by omega
  have h2 : ¬ (w < 0 ∨ g.V ≤ w) := by omega
  by_cases hvw : v = w <;>
    simp [AdjMatrixGraph.add_edge, AdjMatrixGraph.validate_vertex, h1, h2, hvw,
      Bind.bind, Except.bind]

theorem AdjMatrixGraph.matrix_add_edge_err (g : AdjMatrixGraph) (v w : Int)
    (h : ¬ (0 ≤ v ∧ v < g.V) ∨ ¬ (0 ≤ w ∧ w < g.V)) :
    g.add_edge v w = Except.error Err.outOfRange := by
  by_cases h1 : v < 0 ∨ g.V ≤ v
  · simp [AdjMatrixGraph.add_edge, AdjMatrixGraph.validate_vertex, h1, Bind.bind, Except.bind]
  · have h2 : w < 0 ∨ g.V ≤ w := by omega
    simp [AdjMatrixGraph.add_edge, AdjMatrixGraph.validate_vertex, h1, h2,
      Bind.bind, Except.bind]

/-! ### Inversion lemmas for successful calls -/

theorem Graph.add_edge_ok_inv (g g' : Graph) (v w : Int)
    (h : g.add_edge v w = Except.ok g') :
    (0 ≤ v ∧ v < g.V) ∧ (0 ≤ w ∧ w < g.V) ∧
    g' =
      { V := g.V, E := g.E + 1,
        adj := appendAt (if v ≠ w then appendAt g.adj w.toNat v else g.adj) v.toNat w } := by
  by_cases hv : 0 ≤ v ∧ v < g.V
  · by_cases hw : 0 ≤ w ∧ w < g.V
    · rw [Graph.add_edge_ok g v w hv hw] at h
      exact ⟨hv, hw, (Except.ok.inj h).symm⟩
    · rw [Graph.add_edge_err g v w (Or.inr hw)] at h; cases h
  · rw [Graph.add_edge_err g v w (Or.inl hv)] at h; cases h

theorem AdjMatrixGraph.matrix_add_edge_ok_inv (g g' : AdjMatrixGraph) (v w : Int)
    (h : g.add_edge v w = Except.ok g') :
    (0 ≤ v ∧ v < g.V) ∧ (0 ≤ w ∧ w < g.V) ∧
    g' =
      { V := g.V, E := g.E + 1,
        adj := setCell (if v ≠ w then setCell g.adj w.toNat v.toNat else g.adj)
          v.toNat w.toNat } := by
  by_cases hv : 0 ≤ v ∧ v < g.V
  · by_cases hw : 0 ≤ w ∧ w < g.V
    · rw [AdjMatrixGraph.matrix_add_edge_ok g v w hv hw] at h
      exact ⟨hv, hw, (Except.ok.inj h).symm⟩
    · rw [AdjMatrixGraph.matrix_add_edge_err g v w (Or.inr hw)] at h; cases h
  · rw [AdjMatrixGraph.matrix_add_edge_err g v w (Or.inl hv)] at h; cases h

theorem Graph.degree_ok (g : Graph) (v : Int) (hv : 0 ≤ v ∧ v < g.V) :
    g.degree v = Except.ok (g.adjAt v.toNat).length := by
  have h1 : ¬ (v < 0 ∨ g.V ≤ v) := by omega
  simp [Graph.degree, Graph.validate_vertex, h1, Bind.bind, Except.bind]

theorem Graph.degree_ok_inv (g : Graph) (v : Int) (d : Nat)
    (h : g.degree v = Except.ok d) :
    (0 ≤ v ∧ v < g.V) ∧ d = (g.adjAt v.toNat).length := by
  by_cases hv : 0 ≤ v ∧ v < g.V
  · rw [Graph.degree_ok g v hv] at h
    exact ⟨hv, (Except.ok.inj h).symm⟩
  · have h1 : v < 0 ∨ g.V ≤ v := by omega
    simp [Graph.degree, Graph.validate_vertex, h1, Bind.bind, Except.bind] at h

theorem AdjMatrixGraph.matrix_degree_ok (g : AdjMatrixGraph) (v : Int)
    (hv : 0 ≤ v ∧ v < g.V) :
    g.degree v = Except.ok ((g.rowAt v.toNat).countP (fun b => b)) := by
  have h1 : ¬ (v < 0 ∨ g.V ≤ v) := by omega
  simp [AdjMatrixGraph.degree, AdjMatrixGraph.validate_vertex, h1, Bind.bind, Except.bind]

theorem AdjMatrixGraph.matrix_degree_ok_inv (g : AdjMatrixGraph) (v : Int) (d : Nat)
    (h : g.degree v = Except.ok d) :
    (0 ≤ v ∧ v < g.V) ∧ d = (g.rowAt v.toNat).countP (fun b => b) := by
  by_cases hv : 0 ≤ v ∧ v < g.V
  · rw [AdjMatrixGraph.matrix_degree_ok g v hv] at h
    exact ⟨hv, (Except.ok.inj h).symm⟩
  · have h1 : v < 0 ∨ g.V ≤ v := by omega
    simp [AdjMatrixGraph.degree, AdjMatrixGraph.validate_vertex, h1,
      Bind.bind, Except.bind] at h

/-! ### Claim C1 -/

/-- C1: For the list variant, a successful `add_edge(v, w)` on a graph whose
adjacency table has one list per vertex increments `edgeCount` by exactly 1;
if `v ≠ w` it appends `v` to `w`'s adjacency list and `w` to `v`'s adjacency
list (one insertion in each), and if `v = w` it appends `v` to its own list
exactly once; no other adjacency list changes (and the vertex count and
number of lists are unchanged). -/
theorem C1_add_edge_list_effect (g g' : Graph) (v w : Int)
    (hadj : g.adj.length = g.V.toNat)
    (hok : g.add_edge v w = Except.ok g') :
    g'.E = g.E + 1 ∧ g'.V = g.V ∧ g'.adj.length = g.adj.length ∧
    (v ≠ w →
      g'.adjAt v.toNat = g.adjAt v.toNat ++ [w] ∧
      g'.adjAt w.toNat = g.adjAt w.toNat ++ [v] ∧
      ∀ i, i ≠ v.toNat → i ≠ w.toNat → g'.adjAt i = g.adjAt i) ∧
    (v = w →
      g'.adjAt v.toNat = g.adjAt v.toNat ++ [v] ∧
      ∀ i, i ≠ v.toNat → g'.adjAt i = g.adjAt i) := by
  obtain ⟨hv, hw, rfl⟩ := Graph.add_edge_ok_inv g g' v w hok
  have hvlen : v.toNat < g.adj.length := by rw [hadj]; omega
  have hwlen : w.toNat < g.adj.length := by rw [hadj]; omega
  refine ⟨rfl, rfl, ?_, ?_, ?_⟩
  · by_cases hvw : v = w <;> simp [hvw, appendAt_length]
  · intro hvw
    have hnat : v.toNat ≠ w.toNat := by omega
    have hmidlen : (appendAt g.adj w.toNat v).length = g.adj.length := appendAt_length v g.adj w.toNat
    refine ⟨?_, ?_, ?_⟩
    · simp only [Graph.adjAt, ne_eq, hvw, not_false_iff, ite_true]
      rw [appendAt_getD_self w _ v.toNat (by rw [hmidlen]; exact hvlen)]
      rw [appendAt_getD_ne v g.adj w.toNat v.toNat hnat]
    · simp only [Graph.adjAt, ne_eq, hvw, not_false_iff, ite_true]
      rw [appendAt_getD_ne w _ v.toNat w.toNat (Ne.symm hnat)]
      rw [appendAt_getD_self v g.adj w.toNat hwlen]
    · intro i hiv hiw
      simp only [Graph.adjAt, ne_eq, hvw, not_false_iff, ite_true]
      rw [appendAt_getD_ne w _ v.toNat i hiv, appendAt_getD_ne v g.adj w.toNat i hiw]
  · intro hvw
    subst hvw
    refine ⟨?_, ?_⟩
    · simp only [Graph.adjAt]
      rw [if_neg (by simp)]
      rw [appendAt_getD_self v g.adj v.toNat hvlen]
    · intro i hiv
      simp only [Graph.adjAt]
      rw [if_neg (by simp)]
      rw [appendAt_getD_ne v g.adj v.toNat i hiv]

/-- Witness for C1 at a concrete input: adding edge 0-1 to a fresh 2-vertex
graph appends 1 to vertex 0's list. -/
theorem C1_witness :
    ({ V := 2, E := 1, adj := [[1], [0]] } : Graph).adjAt 0 =
      (Graph.init 2).adjAt 0 ++ [1] := by
  have h := C1_add_edge_list_effect (Graph.init 2) { V := 2, E := 1, adj := [[1], [0]] }
    0 1 (by decide) (by decide)
  exact (h.2.2.2.1 (by decide)).1

/-! ### Claim C2 -/

/-- C2: For both variants, `add_edge(v, w)` fails with `OutOfRange` whenever
`v` or `w` is outside `[0, vertexCount)`.  In this pure embedding the failing
call returns only the error — the graph value held by the caller is untouched,
so `edgeCount` and the adjacency storage are exactly as before the call. -/
theorem C2_add_edge_out_of_range (g : Graph) (m : AdjMatrixGraph) (v w x y : Int)
    (hg : ¬ (0 ≤ v ∧ v < g.V) ∨ ¬ (0 ≤ w ∧ w < g.V))
    (hm : ¬ (0 ≤ x ∧ x < m.V) ∨ ¬ (0 ≤ y ∧ y < m.V)) :
    g.add_edge v w = Except.error Err.outOfRange ∧
    m.add_edge x y = Except.error Err.outOfRange :=
  ⟨Graph.add_edge_err g v w hg, AdjMatrixGraph.matrix_add_edge_err m x y hm⟩

/-- Witness for C2: `v = -1` and `v = vertexCount` are both rejected. -/
theorem C2_witness :
    (Graph.init 1).add_edge (-1) 0 = Except.error Err.outOfRange ∧
    ({ V := 1, E := 0, adj := [[false]] } : AdjMatrixGraph).add_edge 1 0 =
      Except.error Err.outOfRange :=
  C2_add_edge_out_of_range (Graph.init 1) { V := 1, E := 0, adj := [[false]] }
    (-1) 0 1 0 (by decide) (by decide)

/-! ### Claim C7 (corrected) -/

/-- C7 counterexample: the claim says constructing EITHER variant with a
negative vertex count fails with `InvalidArgument`, but the list-variant
constructor cannot fail: `Graph(-3)` returns a normal graph (`range(-3)` is
empty, so the constructor just produces no adjacency containers). -/
theorem C7_counterexample :
    Graph.init (-3) = { V := -3, E := 0, adj := [] } := by decide

/-- C7 (amended): constructing the MATRIX variant with a negative vertex count
fails with `InvalidArgument` (numpy rejects negative dimensions), while the
LIST variant succeeds, returning a graph with `edgeCount = 0` and no
adjacency containers. -/
theorem C7_construct_negative (n : Int) (hn : n < 0) :
    AdjMatrixGraph.init n = Except.error Err.invalidArgument ∧
    Graph.init n = { V := n, E := 0, adj := [] } := by
  constructor
  · simp [AdjMatrixGraph.init, hn]
  · have h0 : n.toNat = 0 := by omega
    simp [Graph.init, h0]

/-- Witness for C7 (amended) at `n = -2`. -/
theorem C7_witness :
    AdjMatrixGraph.init (-2) = Except.error Err.invalidArgument ∧
    Graph.init (-2) = { V := -2, E := 0, adj := [] } :=
  C7_construct_negative (-2) (by decide)

/-! ### Claim C10 -/

/-- C10: for every negative `n`, list-variant construction succeeds without
raising, yielding `edgeCount = 0` and no adjacency containers, and every
subsequent `add_edge(v, w)` call fails out-of-range for all integers `v, w`
(no vertex satisfies `0 ≤ v < n`), so the graph permanently rejects all
edges. -/
theorem C10_negative_V_rejects_all (n : Int) (hn : n < 0) :
    Graph.init n = { V := n, E := 0, adj := [] } ∧
    ∀ v w : Int, (Graph.init n).add_edge v w = Except.error Err.outOfRange := by
  constructor
  · have h0 : n.toNat = 0 := by omega
    simp [Graph.init, h0]
  · intro v w
    apply Graph.add_edge_err
    refine Or.inl ?_
    simp only [Graph.init]
    omega

/-- Witness for C10 at `n = -1`, `v = w = 0`. -/
theorem C10_witness :
    Graph.init (-1) = { V := -1, E := 0, adj := [] } ∧
    (Graph.init (-1)).add_edge 0 0 = Except.error Err.outOfRange :=
  ⟨(C10_negative_V_rejects_all (-1) (by decide)).1,
   (C10_negative_V_rejects_all (-1) (by decide)).2 0 0⟩

/-! ### Claim C9 -/

/-- C9: for a graph constructed with non-negative `vertexCount`, every
adjacency-list entry is a valid vertex index in `[0, vertexCount)`; this holds
initially and is preserved by every `add_edge` call, and `vertexCount` is
never changed by `add_edge`.  (A failing call returns only the
`OutOfRange` error, leaving the caller's graph value untouched.) -/
theorem C9_adjacency_entries_valid (n : Int) (_hn : 0 ≤ n) :
    (Graph.init n).entries_valid ∧
    (∀ (g g' : Graph) (v w : Int), g.entries_valid →
      g.add_edge v w = Except.ok g' → g'.entries_valid ∧ g'.V = g.V) := by
  constructor
  · intro r hr y hy
    rw [List.eq_of_mem_replicate hr] at hy
    cases hy
  · intro g g' v w hinv hok
    obtain ⟨hv, hw, rfl⟩ := Graph.add_edge_ok_inv g g' v w hok
    refine ⟨?_, rfl⟩
    intro r hr y hy
    simp only at hr
    have base : ∀ r0 ∈ (if v ≠ w then appendAt g.adj w.toNat v else g.adj),
        ∀ y0 ∈ r0, 0 ≤ y0 ∧ y0 < g.V := by
      by_cases hvw : v = w
      · simpa [hvw] using fun r0 hr0 y0 hy0 => hinv r0 hr0 y0 hy0
      · rw [if_pos hvw]
        intro r0 hr0 y0 hy0
        rcases mem_appendAt v g.adj w.toNat r0 hr0 y0 hy0 with ⟨r1, hr1, hy1⟩ | rfl
        · exact hinv r1 hr1 y0 hy1
        · exact hv
    rcases mem_appendAt w _ v.toNat r hr y hy with ⟨r1, hr1, hy1⟩ | rfl
    · exact base r1 hr1 y hy1
    · exact hw

/-- Witness for C9: the invariant holds for the freshly constructed 2-vertex
graph. -/
theorem C9_witness : (Graph.init 2).entries_valid :=
  (C9_adjacency_entries_valid 2 (by decide)).1

/-! ### Claim C4 -/

theorem AdjMatrixGraph.init_ok_inv (n : Int) (m0 : AdjMatrixGraph)
    (h : AdjMatrixGraph.init n = Except.ok m0) :
    0 ≤ n ∧ m0 =
      { V := n, E := 0,
        adj := List.replicate n.toNat (List.replicate n.toNat false) } := by
  by_cases hn : n < 0
  · simp [AdjMatrixGraph.init, hn] at h
  · rw [AdjMatrixGraph.init, if_neg hn] at h
    exact ⟨by omega, (Except.ok.inj h).symm⟩

theorem countP_replicate_false :
    ∀ k : Nat, (List.replicate k false).countP (fun b => b) = 0 := by
  intro k
  induction k with
  | zero => simp
  | succ p ih => simp [List.replicate, List.countP_cons, ih]

theorem getD_replicate_false (k j : Nat) :
    (List.replicate k false).getD j false = false := by
  rw [getD_replicate]
  exact ite_self false

/-- C4: for the matrix variant, two identical successful `add_edge(v, w)`
calls on a freshly constructed graph raise `edgeCount` to 2 while `degree(v)`
remains 1: the duplicate edge collapses to the single already-`True` matrix
cell even though `edgeCount` is incremented unconditionally. -/
theorem C4_matrix_duplicate_edge (n v w : Int) (m0 m1 m2 : AdjMatrixGraph)
    (h0 : AdjMatrixGraph.init n = Except.ok m0)
    (h1 : m0.add_edge v w = Except.ok m1)
    (h2 : m1.add_edge v w = Except.ok m2) :
    m1.E = 1 ∧ m2.E = 2 ∧
    m1.degree v = Except.ok 1 ∧ m2.degree v = Except.ok 1 := by
  obtain ⟨hn, rfl⟩ := AdjMatrixGraph.init_ok_inv n m0 h0
  obtain ⟨hv, hw, rfl⟩ := AdjMatrixGraph.matrix_add_edge_ok_inv _ m1 v w h1
  simp only at hv hw
  obtain ⟨-, -, rfl⟩ := AdjMatrixGraph.matrix_add_edge_ok_inv _ m2 v w h2
  set k := n.toNat with hk
  set A := List.replicate k (List.replicate k false) with hA
  have hkv : v.toNat < k := by omega
  have hkw : w.toNat < k := by omega
  have hAlen : A.length = k := by simp [hA]
  have hAv : A.getD v.toNat [] = List.replicate k false := by
    rw [hA, getD_replicate]
    simp [hkv]
  have hmidlen : (if v ≠ w then setCell A w.toNat v.toNat else A).length = k := by
    by_cases hvw : v = w <;> simp [hvw, setCell_length, hAlen]
  have hmidv : (if v ≠ w then setCell A w.toNat v.toNat else A).getD v.toNat [] =
      List.replicate k false := by
    by_cases hvw : v = w
    · rw [if_neg (fun h => h hvw)]
      exact hAv
    · have hnat : v.toNat ≠ w.toNat := by omega
      simp only [ne_eq, hvw, not_false_iff, ite_true]
      rw [setCell_getD_ne v.toNat A w.toNat v.toNat hnat, hAv]
  have hrow1 : (setCell (if v ≠ w then setCell A w.toNat v.toNat else A) v.toNat w.toNat).getD
      v.toNat [] = setTrue (List.replicate k false) w.toNat := by
    rw [setCell_getD_self w.toNat _ v.toNat (by rw [hmidlen]; exact hkv), hmidv]
  have hrowcount : (setTrue (List.replicate k false) w.toNat).countP (fun b => b) = 1 := by
    rw [countP_setTrue (List.replicate k false) w.toNat (by simp [hkw])]
    rw [getD_replicate_false, countP_replicate_false]
    simp
  have hadj1len : (setCell (if v ≠ w then setCell A w.toNat v.toNat else A)
      v.toNat w.toNat).length = k := by
    rw [setCell_length, hmidlen]
  refine ⟨rfl, rfl, ?_, ?_⟩
  · rw [AdjMatrixGraph.matrix_degree_ok _ v (by exact ⟨hv.1, hv.2⟩)]
    simp only [AdjMatrixGraph.rowAt]
    rw [hrow1, hrowcount]
  · rw [AdjMatrixGraph.matrix_degree_ok _ v (by exact ⟨hv.1, hv.2⟩)]
    simp only [AdjMatrixGraph.rowAt]
    set B := setCell (if v ≠ w then setCell A w.toNat v.toNat else A) v.toNat w.toNat with hB
    have hmid2 : (if v ≠ w then setCell B w.toNat v.toNat else B).getD v.toNat [] =
        B.getD v.toNat [] := by
      by_cases hvw : v = w
      · simp [hvw]
      · have hnat : v.toNat ≠ w.toNat := by omega
        simp only [ne_eq, hvw, not_false_iff, ite_true]
        exact setCell_getD_ne v.toNat B w.toNat v.toNat hnat
    have hmid2len : (if v ≠ w then setCell B w.toNat v.toNat else B).length = k := by
      by_cases hvw : v = w <;> simp [hvw, setCell_length, hadj1len]
    rw [setCell_getD_self w.toNat _ v.toNat (by rw [hmid2len]; exact hkv), hmid2, hrow1]
    rw [setTrue_eq_self _ w.toNat (by
      rw [setTrue_getD_self (List.replicate k false) w.toNat (by simp [hkw])])]
    exact congrArg Except.ok hrowcount

/-- Witness for C4: on a fresh 2-vertex matrix graph, adding edge 0-1 twice
gives `edgeCount = 2` and `degree(0) = 1`. -/
theorem C4_witness :
    ({ V := 2, E := 2, adj := [[false, true], [true, false]] } : AdjMatrixGraph).E = 2 ∧
    ({ V := 2, E := 2, adj := [[false, true], [true, false]] } : AdjMatrixGraph).degree 0 =
      Except.ok 1 := by
  have h := C4_matrix_duplicate_edge 2 0 1
    { V := 2, E := 0, adj := [[false, false], [false, false]] }
    { V := 2, E := 1, adj := [[false, true], [true, false]] }
    { V := 2, E := 2, adj := [[false, true], [true, false]] }
    (by decide) (by decide) (by decide)
  exact ⟨h.2.1 ▸ rfl, h.2.2.2⟩

/-! ### Claim C8 -/

/-- C8: for both variants, `maxDegree()` is an upper bound of `degree(v)` over
all valid vertices, and is attained by some vertex unless it is 0; it is 0
when `vertexCount = 0` and 0 when every vertex is isolated (all degrees 0). -/
theorem C8_max_degree (g : Graph) (m : AdjMatrixGraph) :
    (∀ v d, g.degree v = Except.ok d → d ≤ g.max_degree) ∧
    (g.max_degree = 0 ∨ ∃ v d, g.degree v = Except.ok d ∧ d = g.max_degree) ∧
    (g.V = 0 → g.max_degree = 0) ∧
    ((∀ v d, g.degree v = Except.ok d → d = 0) → g.max_degree = 0) ∧
    (∀ v d, m.degree v = Except.ok d → d ≤ m.max_degree) ∧
    (m.max_degree = 0 ∨ ∃ v d, m.degree v = Except.ok d ∧ d = m.max_degree) ∧
    (m.V = 0 → m.max_degree = 0) ∧
    ((∀ v d, m.degree v = Except.ok d → d = 0) → m.max_degree = 0) := by
  obtain ⟨-, hub, hatt⟩ :=
    foldl_max_spec (fun i => (g.adjAt i).length) (List.range g.V.toNat) 0
  obtain ⟨-, hub', hatt'⟩ :=
    foldl_max_spec (fun i => (m.rowAt i).countP (fun b => b)) (List.range m.V.toNat) 0
  have hupper : ∀ v d, g.degree v = Except.ok d → d ≤ g.max_degree := by
    intro v d h
    obtain ⟨hv, rfl⟩ := Graph.degree_ok_inv g v d h
    exact hub v.toNat (List.mem_range.mpr (by omega))
  have hattain : g.max_degree = 0 ∨
      ∃ v d, g.degree v = Except.ok d ∧ d = g.max_degree := by
    rcases hatt with h | ⟨i, hi, hieq⟩
    · exact Or.inl h
    · refine Or.inr ⟨(i : Int), (g.adjAt i).length, ?_, hieq⟩
      have hi' : i < g.V.toNat := List.mem_range.mp hi
      rw [Graph.degree_ok g (i : Int) ⟨Int.natCast_nonneg i, by omega⟩]
      simp
  have hupper' : ∀ v d, m.degree v = Except.ok d → d ≤ m.max_degree := by
    intro v d h
    obtain ⟨hv, rfl⟩ := AdjMatrixGraph.matrix_degree_ok_inv m v d h
    exact hub' v.toNat (List.mem_range.mpr (by omega))
  have hattain' : m.max_degree = 0 ∨
      ∃ v d, m.degree v = Except.ok d ∧ d = m.max_degree := by
    rcases hatt' with h | ⟨i, hi, hieq⟩
    · exact Or.inl h
    · refine Or.inr ⟨(i : Int), (m.rowAt i).countP (fun b => b), ?_, hieq⟩
      have hi' : i < m.V.toNat := List.mem_range.mp hi
      rw [AdjMatrixGraph.matrix_degree_ok m (i : Int) ⟨Int.natCast_nonneg i, by omega⟩]
      simp
  refine ⟨hupper, hattain, ?_, ?_, hupper', hattain', ?_, ?_⟩
  · intro h0
    simp [Graph.max_degree, h0]
  · intro hiso
    rcases hattain with h | ⟨v, d, hd, hdm⟩
    · exact h
    · rw [← hdm]; exact hiso v d hd
  · intro h0
    simp [AdjMatrixGraph.max_degree, h0]
  · intro hiso
    rcases hattain' with h | ⟨v, d, hd, hdm⟩
    · exact h
    · rw [← hdm]; exact hiso v d hd

/-- Witness for C8: on a concrete 3-vertex graph, a degree of 2 is bounded by
`maxDegree`, and `maxDegree` of an empty matrix graph is 0. -/
theorem C8_witness :
    (2 : Nat) ≤ ({ V := 3, E := 2, adj := [[1], [0, 2], [1]] } : Graph).max_degree ∧
    ({ V := 0, E := 0, adj := [] } : AdjMatrixGraph).max_degree = 0 := by
  have h := C8_max_degree { V := 3, E := 2, adj := [[1], [0, 2], [1]] }
    { V := 0, E := 0, adj := [] }
  exact ⟨h.1 1 2 (by decide), h.2.2.2.2.2.2.1 (by decide)⟩

/-! ### Claim C3: self-loop counting along a trace of calls -/

theorem Graph.self_loops_eq_sum (g : Graph) :
    g.self_loops =
      ((List.range g.V.toNat).map
        (fun i => (g.adjAt i).countP (fun y => y == (i : Int)))).sum := by
  rw [Graph.self_loops, foldl_add_eq, Nat.zero_add]

theorem Graph.init_self_loops (n : Int) : (Graph.init n).self_loops = 0 := by
  rw [Graph.self_loops_eq_sum]
  rw [sum_map_range_congr (fun _ => 0) _ _ (fun i hi => by
    simp [Graph.adjAt, Graph.init, getD_replicate])]
  simp

theorem countP_self_singleton (x c : Int) :
    [x].countP (fun y => y == c) = if x = c then 1 else 0 := by
  simp [List.countP_cons, beq_iff_eq]

theorem Graph.add_edge_self_loops (g g' : Graph) (v w : Int)
    (hadj : g.adj.length = g.V.toNat)
    (hok : g.add_edge v w = Except.ok g') :
    g'.self_loops = g.self_loops + (if v = w then 1 else 0) ∧
    g'.adj.length = g'.V.toNat ∧ g'.V = g.V ∧ g'.E = g.E + 1 := by
  obtain ⟨hv, hw, rfl⟩ := Graph.add_edge_ok_inv g g' v w hok
  have hvn : v.toNat < g.V.toNat := by omega
  have hwn : w.toNat < g.V.toNat := by omega
  have hvlen : v.toNat < g.adj.length := by omega
  have hwlen : w.toNat < g.adj.length := by omega
  have hcastv : (v.toNat : Int) = v := Int.toNat_of_nonneg hv.1
  have hlen : (appendAt (if v ≠ w then appendAt g.adj w.toNat v else g.adj) v.toNat w).length
      = g.adj.length := by
    by_cases hvw : v = w <;> simp [hvw, appendAt_length]
  refine ⟨?_, ?_, rfl, rfl⟩
  swap
  · show (appendAt (if v ≠ w then appendAt g.adj w.toNat v else g.adj) v.toNat w).length
      = g.V.toNat
    rw [hlen, hadj]
  rw [Graph.self_loops_eq_sum, Graph.self_loops_eq_sum]
  simp only [Graph.adjAt]
  by_cases hvw : v = w
  · subst hvw
    rw [if_pos rfl]
    have hstep : ∀ i, i < g.V.toNat → i ≠ v.toNat →
        ((appendAt (if v ≠ v then appendAt g.adj v.toNat v else g.adj) v.toNat v).getD i
          []).countP (fun y => y == (i : Int)) =
        (g.adj.getD i []).countP (fun y => y == (i : Int)) := by
      intro i _ hi
      rw [if_neg (fun h => h rfl), appendAt_getD_ne v g.adj v.toNat i hi]
    have hat : ((appendAt (if v ≠ v then appendAt g.adj v.toNat v else g.adj) v.toNat
        v).getD v.toNat []).countP (fun y => y == (v.toNat : Int)) =
        (g.adj.getD v.toNat []).countP (fun y => y == (v.toNat : Int)) + 1 := by
      rw [if_neg (fun h => h rfl), appendAt_getD_self v g.adj v.toNat hvlen,
        List.countP_append, countP_self_singleton]
      rw [if_pos hcastv.symm]
    exact sum_map_range_update _ _ v.toNat 1 g.V.toNat hvn hstep hat
  · rw [if_neg hvw, Nat.add_zero]
    have hnat : v.toNat ≠ w.toNat := by omega
    have hmidlen : (appendAt g.adj w.toNat v).length = g.adj.length :=
      appendAt_length v g.adj w.toNat
    have hcastw : (w.toNat : Int) = w := Int.toNat_of_nonneg hw.1
    refine sum_map_range_congr _ _ g.V.toNat ?_
    intro i hi
    by_cases hiv : i = v.toNat
    · subst hiv
      rw [if_pos hvw, appendAt_getD_self w _ v.toNat (by rw [hmidlen]; exact hvlen),
        appendAt_getD_ne v g.adj w.toNat v.toNat hnat,
        List.countP_append, countP_self_singleton, if_neg (by rw [hcastv]; omega)]
      simp
    · by_cases hiw : i = w.toNat
      · subst hiw
        rw [if_pos hvw, appendAt_getD_ne w _ v.toNat w.toNat (Ne.symm hnat),
          appendAt_getD_self v g.adj w.toNat hwlen,
          List.countP_append, countP_self_singleton, if_neg (by rw [hcastw]; omega)]
        simp
      · rw [if_pos hvw, appendAt_getD_ne w _ v.toNat i hiv,
          appendAt_getD_ne v g.adj w.toNat i hiw]

theorem Graph.add_edges_self_loops (es : List (Int × Int)) :
    ∀ (g g' : Graph), g.adj.length = g.V.toNat →
      Graph.add_edges g es = Except.ok g' →
      g'.self_loops = g.self_loops + es.countP (fun e => e.1 == e.2) := by
  induction es with
  | nil =>
    intro g g' _ h
    rw [Graph.add_edges] at h
    rw [← Except.ok.inj h]
    simp
  | cons e es ih =>
    intro g g' hadj h
    rw [Graph.add_edges] at h
    cases heq : g.add_edge e.1 e.2 with
    | error err => rw [heq] at h; cases h
    | ok g1 =>
      rw [heq] at h
      obtain ⟨hstep, hadj1, -, -⟩ := Graph.add_edge_self_loops g g1 e.1 e.2 hadj heq
      have := ih g1 g' hadj1 h
      rw [this, hstep, List.countP_cons]
      have hco : (if (e.1 == e.2) = true then 1 else 0) = if e.1 = e.2 then 1 else 0 := by
        simp [beq_iff_eq]
      omega

theorem AdjMatrixGraph.matrix_self_loops_eq_sum (m : AdjMatrixGraph) :
    m.self_loops =
      ((List.range m.V.toNat).map
        (fun i => if (m.rowAt i).getD i false then 1 else 0)).sum := by
  rw [AdjMatrixGraph.self_loops, foldl_count_eq, Nat.zero_add]

theorem setCell_wf (A : List (List Bool)) (nn i j : Nat)
    (hlen : A.length = nn) (hrows : ∀ k, k < nn → (A.getD k []).length = nn)
    (hi : i < nn) :
    (setCell A i j).length = nn ∧
    ∀ k, k < nn → ((setCell A i j).getD k []).length = nn := by
  refine ⟨by rw [setCell_length, hlen], ?_⟩
  intro k hk
  by_cases hki : k = i
  · subst hki
    rw [setCell_getD_self j A k (by rw [hlen]; exact hi), setTrue_length]
    exact hrows k hk
  · rw [setCell_getD_ne j A i k hki]
    exact hrows k hk

theorem AdjMatrixGraph.add_edge_diag (m m' : AdjMatrixGraph) (v w : Int)
    (hwf : m.wf) (hok : m.add_edge v w = Except.ok m') :
    m'.wf ∧ m'.V = m.V ∧ (0 ≤ v ∧ v < m.V) ∧ (0 ≤ w ∧ w < m.V) ∧
    ∀ i, i < m.V.toNat →
      ((m'.adj.getD i []).getD i false = true ↔
        ((m.adj.getD i []).getD i false = true ∨ (v = w ∧ i = v.toNat))) := by
  obtain ⟨hv, hw, rfl⟩ := AdjMatrixGraph.matrix_add_edge_ok_inv m m' v w hok
  obtain ⟨hlen, hrows⟩ := hwf
  have hvn : v.toNat < m.V.toNat := by omega
  have hwn : w.toNat < m.V.toNat := by omega
  by_cases hvw : v = w
  · subst hvw
    have hite : (if v ≠ v then setCell m.adj v.toNat v.toNat else m.adj) = m.adj :=
      if_neg (fun h => h rfl)
    rw [hite]
    have hwfcell := setCell_wf m.adj m.V.toNat v.toNat v.toNat hlen hrows hvn
    refine ⟨⟨hwfcell.1, hwfcell.2⟩, rfl, hv, hv, ?_⟩
    intro i hi
    by_cases hiv : i = v.toNat
    · subst hiv
      rw [setCell_getD_self v.toNat m.adj v.toNat (by rw [hlen]; exact hvn)]
      rw [setTrue_getD_self (m.adj.getD v.toNat []) v.toNat
        (by rw [hrows v.toNat hi]; exact hvn)]
      simp
    · rw [setCell_getD_ne v.toNat m.adj v.toNat i hiv]
      simp [hiv]
  · have hite : (if v ≠ w then setCell m.adj w.toNat v.toNat else m.adj) =
        setCell m.adj w.toNat v.toNat := if_pos hvw
    rw [hite]
    have hnat : v.toNat ≠ w.toNat := by omega
    have hwf1 := setCell_wf m.adj m.V.toNat w.toNat v.toNat hlen hrows hwn
    have hwf2 := setCell_wf (setCell m.adj w.toNat v.toNat) m.V.toNat v.toNat w.toNat
      hwf1.1 hwf1.2 hvn
    refine ⟨⟨hwf2.1, hwf2.2⟩, rfl, hv, hw, ?_⟩
    intro i hi
    by_cases hiv : i = v.toNat
    · subst hiv
      rw [setCell_getD_self w.toNat _ v.toNat (by rw [hwf1.1]; exact hvn)]
      rw [setCell_getD_ne v.toNat m.adj w.toNat v.toNat hnat]
      rw [setTrue_getD_ne (m.adj.getD v.toNat []) v.toNat w.toNat hnat]
      simp [hvw]
    · by_cases hiw : i = w.toNat
      · subst hiw
        rw [setCell_getD_ne w.toNat _ v.toNat w.toNat (Ne.symm hnat)]
        rw [setCell_getD_self v.toNat m.adj w.toNat (by rw [hlen]; exact hwn)]
        rw [setTrue_getD_ne (m.adj.getD w.toNat []) w.toNat v.toNat (Ne.symm hnat)]
        simp [hvw, hiv]
      · rw [setCell_getD_ne w.toNat _ v.toNat i hiv]
        rw [setCell_getD_ne v.toNat m.adj w.toNat i hiw]
        simp [hvw, hiv]

theorem AdjMatrixGraph.add_edges_diag (es : List (Int × Int)) :
    ∀ (m m' : AdjMatrixGraph), m.wf →
      AdjMatrixGraph.add_edges m es = Except.ok m' →
      m'.wf ∧ m'.V = m.V ∧
      (∀ e ∈ es, (0 ≤ e.1 ∧ e.1 < m.V) ∧ (0 ≤ e.2 ∧ e.2 < m.V)) ∧
      ∀ i, i < m.V.toNat →
        ((m'.adj.getD i []).getD i false = true ↔
          ((m.adj.getD i []).getD i false = true ∨ ((i : Int), (i : Int)) ∈ es)) := by
  induction es with
  | nil =>
    intro m m' hwf h
    rw [AdjMatrixGraph.add_edges] at h
    obtain rfl := Except.ok.inj h
    exact ⟨hwf, rfl, by simp, fun i _ => by simp⟩
  | cons e es ih =>
    intro m m' hwf h
    rw [AdjMatrixGraph.add_edges] at h
    cases heq : m.add_edge e.1 e.2 with
    | error err => rw [heq] at h; cases h
    | ok m1 =>
      rw [heq] at h
      obtain ⟨hwf1, hV1, hv, hw, hdiag1⟩ := AdjMatrixGraph.add_edge_diag m m1 e.1 e.2 hwf heq
      obtain ⟨hwf', hV', hval, hdiag'⟩ := ih m1 m' hwf1 h
      refine ⟨hwf', by rw [hV', hV1], ?_, ?_⟩
      · intro e' he'
        rcases List.mem_cons.mp he' with rfl | he'
        · exact ⟨hv, hw⟩
        · have := hval e' he'
          rw [hV1] at this
          exact this
      · intro i hi
        have hi1 : i < m1.V.toNat := by rw [hV1]; exact hi
        rw [hdiag' i hi1, hdiag1 i hi]
        obtain ⟨e1, e2⟩ := e
        constructor
        · rintro ((hd | ⟨hvw, hIdx⟩) | hmem)
          · exact Or.inl hd
          · refine Or.inr (List.mem_cons.mpr (Or.inl ?_))
            simp only at hvw hIdx
            have h1 : (i : Int) = e1 := by omega
            rw [Prod.mk.injEq]
            exact ⟨h1, by omega⟩
          · exact Or.inr (List.mem_cons_of_mem _ hmem)
        · rintro (hd | hmem)
          · exact Or.inl (Or.inl hd)
          · rcases List.mem_cons.mp hmem with heq' | hmem'
            · rw [Prod.mk.injEq] at heq'
              refine Or.inl (Or.inr ⟨by omega, by omega⟩)
            · exact Or.inr hmem'

theorem sum_indicator_range_mem (S : List Int) :
    ∀ n : Nat, (∀ x ∈ S, 0 ≤ x ∧ x < (n : Int)) →
      ((List.range n).map (fun i : Nat => if (i : Int) ∈ S then 1 else 0)).sum =
        S.dedup.length := by
  induction S with
  | nil =>
    intro n _
    rw [sum_map_range_congr (fun _ => 0) _ n (fun i _ => by simp)]
    simp
  | cons x S ih =>
    intro n hb
    have hxb := hb x (List.mem_cons_self x S)
    have hrest : ∀ y ∈ S, 0 ≤ y ∧ y < (n : Int) :=
      fun y hy => hb y (List.mem_cons_of_mem x hy)
    by_cases hx : x ∈ S
    · rw [List.dedup_cons_of_mem hx, ← ih n hrest]
      refine sum_map_range_congr _ _ n ?_
      intro i _
      by_cases hix : (i : Int) = x
      · have hmS : (i : Int) ∈ S := by rw [hix]; exact hx
        simp [List.mem_cons, hix, hmS, hx]
      · simp [List.mem_cons, hix]
    · rw [List.dedup_cons_of_not_mem hx, List.length_cons, ← ih n hrest]
      apply sum_map_range_update (fun i : Nat => if (i : Int) ∈ S then 1 else 0)
        (fun i : Nat => if (i : Int) ∈ x :: S then 1 else 0) x.toNat 1 n (by omega)
      · intro i _ hia
        have hix : (i : Int) ≠ x := by
          intro hc
          exact hia (by omega)
        simp [List.mem_cons, hix]
      · have hcx : ((x.toNat : Nat) : Int) = x := Int.toNat_of_nonneg hxb.1
        rw [hcx]
        simp [hx]

theorem mem_self_vertices (es : List (Int × Int)) (x : Int) :
    (x ∈ (es.filter (fun e => e.1 == e.2)).map Prod.fst) ↔ (x, x) ∈ es := by
  constructor
  · intro h
    obtain ⟨e, he, hfst⟩ := List.mem_map.mp h
    obtain ⟨hein, hbeq⟩ := List.mem_filter.mp he
    obtain ⟨e1, e2⟩ := e
    simp only [beq_iff_eq] at hbeq
    simp only at hfst
    subst hbeq
    subst hfst
    exact hein
  · intro h
    exact List.mem_map.mpr ⟨(x, x), List.mem_filter.mpr ⟨h, by simp⟩, rfl⟩

/-- C3: starting from freshly constructed graphs, after any sequence of
successful `add_edge` calls the list variant's `selfLoopCount()` equals the
number of calls with `v = w` (counted with multiplicity), while the matrix
variant's `selfLoopCount()` equals the number of distinct vertices `v` for
which at least one `add_edge(v, v)` call was made. -/
theorem C3_self_loop_count (n : Int) (es : List (Int × Int))
    (g' : Graph) (m0 m' : AdjMatrixGraph)
    (hg : Graph.add_edges (Graph.init n) es = Except.ok g')
    (h0 : AdjMatrixGraph.init n = Except.ok m0)
    (hm : AdjMatrixGraph.add_edges m0 es = Except.ok m') :
    g'.self_loops = es.countP (fun e => e.1 == e.2) ∧
    m'.self_loops = ((es.filter (fun e => e.1 == e.2)).map Prod.fst).dedup.length := by
  constructor
  · have hadj : (Graph.init n).adj.length = (Graph.init n).V.toNat := by
      simp [Graph.init]
    have hmain := Graph.add_edges_self_loops es (Graph.init n) g' hadj hg
    rw [Graph.init_self_loops, Nat.zero_add] at hmain
    exact hmain
  · obtain ⟨hn, rfl⟩ := AdjMatrixGraph.init_ok_inv n m0 h0
    have hwf0 :
        AdjMatrixGraph.wf
          { V := n, E := 0,
            adj := List.replicate n.toNat (List.replicate n.toNat false) } := by
      refine ⟨by simp, ?_⟩
      intro i hi
      simp only at hi ⊢
      rw [getD_replicate]
      simp [hi]
    obtain ⟨hwf', hV', hval, hdiag⟩ := AdjMatrixGraph.add_edges_diag es _ m' hwf0 hm
    have hVk : m'.V.toNat = n.toNat := by rw [hV']
    rw [AdjMatrixGraph.matrix_self_loops_eq_sum, hVk]
    have hbound : ∀ x ∈ (es.filter (fun e => e.1 == e.2)).map Prod.fst,
        0 ≤ x ∧ x < (n.toNat : Int) := by
      intro x hx
      have hmemes : (x, x) ∈ es := (mem_self_vertices es x).mp hx
      have hb := hval (x, x) hmemes
      simp only at hb
      refine ⟨hb.1.1, ?_⟩
      have : x < n := hb.1.2
      omega
    rw [← sum_indicator_range_mem _ n.toNat hbound]
    refine sum_map_range_congr _ _ n.toNat ?_
    intro i hi
    have hd := hdiag i (by simpa using hi)
    have hd0 : (((List.replicate n.toNat (List.replicate n.toNat false)).getD i
        []).getD i false) = false := by
      rw [getD_replicate]
      simp [hi, getD_replicate_false]
    simp only at hd
    rw [hd0] at hd
    by_cases hmem : ((i : Int), (i : Int)) ∈ es
    · have htrue : (m'.adj.getD i []).getD i false = true := hd.mpr (Or.inr hmem)
      have hmemS : (i : Int) ∈ (es.filter (fun e => e.1 == e.2)).map Prod.fst :=
        (mem_self_vertices es (i : Int)).mpr hmem
      simp only [AdjMatrixGraph.rowAt]
      rw [if_pos htrue, if_pos hmemS]
    · have hfalse : (m'.adj.getD i []).getD i false = false := by
        rcases Bool.eq_false_or_eq_true ((m'.adj.getD i []).getD i false) with h | h
        · rcases hd.mp h with hcontra | hcontra
          · cases hcontra
          · exact absurd hcontra hmem
        · exact h
      have hmemS : ¬ (i : Int) ∈ (es.filter (fun e => e.1 == e.2)).map Prod.fst :=
        fun hc => hmem ((mem_self_vertices es (i : Int)).mp hc)
      simp only [AdjMatrixGraph.rowAt]
      rw [if_neg (fun hc => by rw [hc] at hfalse; cases hfalse), if_neg hmemS]

/-- Witness for C3: three calls — two self-loops at 0 and one edge 0-1 —
give list `selfLoopCount` 2 and matrix `selfLoopCount` 1. -/
theorem C3_witness :
    ({ V := 2, E := 3, adj := [[0, 0, 1], [0]] } : Graph).self_loops = 2 ∧
    ({ V := 2, E := 3, adj := [[true, true], [true, false]] } :
      AdjMatrixGraph).self_loops = 1 := by
  have h := C3_self_loop_count 2 [(0, 0), (0, 0), (0, 1)]
    { V := 2, E := 3, adj := [[0, 0, 1], [0]] }
    { V := 2, E := 0, adj := [[false, false], [false, false]] }
    { V := 2, E := 3, adj := [[true, true], [true, false]] }
    (by decide) (by decide) (by decide)
  exact ⟨h.1.trans (by decide), h.2.trans (by decide)⟩

/-! ### Claims C5 and C6: the loader and `load` -/

theorem readEdges_err (lines : List String) :
    ∀ (cnt idx : Nat) (e : Err),
      readEdges lines idx cnt = Except.error e → e = Err.parseError := by
  intro cnt
  induction cnt with
  | zero =>
    intro idx e h
    rw [readEdges] at h
    cases h
  | succ p ih =>
    intro idx e h
    rw [readEdges] at h
    cases hp : parseEdgeLine (lines.getD idx "") with
    | none =>
      rw [hp] at h
      exact (Except.error.inj h).symm
    | some ed =>
      rw [hp] at h
      cases hr : readEdges lines (idx + 1) p with
      | error e2 =>
        rw [hr] at h
        rw [← Except.error.inj h]
        exact ih (idx + 1) e2 hr
      | ok rest =>
        rw [hr] at h
        cases h

theorem readEdges_ok_spec (lines : List String) :
    ∀ (cnt idx : Nat) (es : List (Int × Int)),
      readEdges lines idx cnt = Except.ok es →
      es.length = cnt ∧
      ∀ i, i < cnt → parseEdgeLine (lines.getD (idx + i) "") = es.get? i := by
  intro cnt
  induction cnt with
  | zero =>
    intro idx es h
    rw [readEdges] at h
    obtain rfl := Except.ok.inj h
    exact ⟨rfl, fun i hi => absurd hi (by omega)⟩
  | succ p ih =>
    intro idx es h
    rw [readEdges] at h
    cases hp : parseEdgeLine (lines.getD idx "") with
    | none => rw [hp] at h; cases h
    | some ed =>
      rw [hp] at h
      cases hr : readEdges lines (idx + 1) p with
      | error e2 => rw [hr] at h; cases h
      | ok rest =>
        rw [hr] at h
        obtain rfl := Except.ok.inj h
        obtain ⟨hlen, hall⟩ := ih (idx + 1) rest hr
        refine ⟨by simp [hlen], ?_⟩
        intro i hi
        cases i with
        | zero => simpa using hp
        | succ q =>
          have hq := hall q (by omega)
          rw [show idx + (q + 1) = (idx + 1) + q by omega]
          simpa using hq

theorem readEdges_fail_at (lines : List String) :
    ∀ (cnt idx k : Nat), k < cnt →
      (∀ i, i < k → (parseEdgeLine (lines.getD (idx + i) "")).isSome) →
      parseEdgeLine (lines.getD (idx + k) "") = none →
      readEdges lines idx cnt = Except.error Err.parseError := by
  intro cnt
  induction cnt with
  | zero =>
    intro idx k hk
    exact absurd hk (by omega)
  | succ p ih =>
    intro idx k hk hpre hfail
    rw [readEdges]
    cases k with
    | zero =>
      rw [show idx + 0 = idx by omega] at hfail
      rw [hfail]
    | succ q =>
      have h0 : (parseEdgeLine (lines.getD idx "")).isSome := by
        have h00 := hpre 0 (by omega)
        simpa using h00
      cases hp : parseEdgeLine (lines.getD idx "") with
      | none => rfl
      | some ed =>
        have hrec := ih (idx + 1) q (by omega)
          (fun i hi => by
            have hpi := hpre (i + 1) (by omega)
            rw [show idx + (i + 1) = (idx + 1) + i by omega] at hpi
            exact hpi)
          (by rw [show (idx + 1) + q = idx + (q + 1) by omega]; exact hfail)
        show (match readEdges lines (idx + 1) p with
          | Except.error err => Except.error err
          | Except.ok rest => Except.ok (ed :: rest)) = Except.error Err.parseError
        rw [hrec]

/-- C6: the edge-list loader fails with `InvalidFormat` when the parsed vertex
count `V` or edge count `E` is negative, fails with `ParseError` on a
malformed header token or when some required edge line is missing or
malformed, and on success returns exactly `E` `(v, w)` pairs in line order
together with `V` — without validating that `v` and `w` are in range, as the
final conjunct shows on a 1-vertex file with edge `5 7`. -/
theorem C6_loader_contract (lines : List String) :
    (pyInt (lines.getD 0 "") = none →
      read_array_of_edges lines = Except.error Err.parseError) ∧
    (∀ V : Int, pyInt (lines.getD 0 "") = some V → V < 0 →
      read_array_of_edges lines = Except.error Err.invalidFormat) ∧
    (∀ V : Int, pyInt (lines.getD 0 "") = some V → 0 ≤ V →
      pyInt (lines.getD 1 "") = none →
      read_array_of_edges lines = Except.error Err.parseError) ∧
    (∀ V E : Int, pyInt (lines.getD 0 "") = some V → 0 ≤ V →
      pyInt (lines.getD 1 "") = some E → E < 0 →
      read_array_of_edges lines = Except.error Err.invalidFormat) ∧
    (∀ V E : Int, pyInt (lines.getD 0 "") = some V → 0 ≤ V →
      pyInt (lines.getD 1 "") = some E → 0 ≤ E →
      ∀ k, k < E.toNat →
        (∀ i, i < k → (parseEdgeLine (lines.getD (2 + i) "")).isSome) →
        parseEdgeLine (lines.getD (2 + k) "") = none →
        read_array_of_edges lines = Except.error Err.parseError) ∧
    (∀ (edges : List (Int × Int)) (V : Int),
      read_array_of_edges lines = Except.ok (edges, V) →
      pyInt (lines.getD 0 "") = some V ∧ 0 ≤ V ∧
      ∃ E : Int, pyInt (lines.getD 1 "") = some E ∧ 0 ≤ E ∧
        edges.length = E.toNat ∧
        ∀ i, i < edges.length →
          parseEdgeLine (lines.getD (2 + i) "") = edges.get? i) ∧
    read_array_of_edges ["1", "1", "5 7"] = Except.ok ([(5, 7)], 1) := by
  refine ⟨?_, ?_, ?_, ?_, ?_, ?_, by decide⟩
  · intro h
    simp only [read_array_of_edges, h]
  · intro V h hneg
    simp only [read_array_of_edges, h]
    rw [if_pos hneg]
  · intro V h hVpos h2
    simp only [read_array_of_edges, h, h2]
    rw [if_neg (by omega)]
  · intro V E h hVpos h2 hEneg
    simp only [read_array_of_edges, h, h2]
    rw [if_neg (by omega), if_pos hEneg]
  · intro V E h hVpos h2 hEpos k hk hpre hfail
    simp only [read_array_of_edges, h, h2]
    rw [if_neg (by omega), if_neg (by omega)]
    rw [readEdges_fail_at lines E.toNat 2 k hk hpre hfail]
  · intro edges V h
    cases hp0 : pyInt (lines.getD 0 "") with
    | none =>
      simp only [read_array_of_edges, hp0] at h
      cases h
    | some V0 =>
      simp only [read_array_of_edges, hp0] at h
      by_cases hV0 : V0 < 0
      · rw [if_pos hV0] at h; cases h
      · rw [if_neg hV0] at h
        cases hp1 : pyInt (lines.getD 1 "") with
        | none => simp only [hp1] at h; cases h
        | some E0 =>
          simp only [hp1] at h
          by_cases hE0 : E0 < 0
          · rw [if_pos hE0] at h; cases h
          · rw [if_neg hE0] at h
            cases hr : readEdges lines 2 E0.toNat with
            | error e2 => rw [hr] at h; cases h
            | ok edges0 =>
              rw [hr] at h
              have hpair := Except.ok.inj h
              rw [Prod.mk.injEq] at hpair
              obtain ⟨h1, h2⟩ := hpair
              subst h1
              subst h2
              obtain ⟨hlen, hall⟩ := readEdges_ok_spec lines E0.toNat 2 edges0 hr
              refine ⟨rfl, by omega, E0, rfl, by omega, hlen, ?_⟩
              intro i hi
              exact hall i (by omega)

/-- Witness for C6: a file whose first line is `-1` is rejected with
`InvalidFormat`. -/
theorem C6_witness :
    read_array_of_edges ["-1"] = Except.error Err.invalidFormat :=
  (C6_loader_contract ["-1"]).2.1 (-1) (by decide) (by decide)

/-- C5: `load(source)` runs the loader and then one `add_edge` per parsed
pair in parse order, returning the populated graph; loader and `add_edge`
errors propagate unchanged (shown both in general and on a file whose edge
is out of range); loading V=3, E=2 with edges `0 1` and `1 2` yields
`edgeCount = 2`, degrees 1, 2, 1 and `selfLoopCount() = 0`. -/
theorem C5_load_contract :
    (∀ (lines : List String) (e : Err),
      read_array_of_edges lines = Except.error e →
      Graph.load lines = Except.error e) ∧
    (∀ (lines : List String) (edges : List (Int × Int)) (V : Int),
      read_array_of_edges lines = Except.ok (edges, V) →
      Graph.load lines = Graph.add_edges (Graph.init V) edges) ∧
    Graph.load ["1", "1", "2 3"] = Except.error Err.outOfRange ∧
    (∃ g : Graph, Graph.load ["3", "2", "0 1", "1 2"] = Except.ok g ∧
      g.E = 2 ∧ g.degree 0 = Except.ok 1 ∧ g.degree 1 = Except.ok 2 ∧
      g.degree 2 = Except.ok 1 ∧ g.self_loops = 0) := by
  refine ⟨?_, ?_, by decide, ?_⟩
  · intro lines e h
    simp only [Graph.load, h]
  · intro lines edges V h
    simp only [Graph.load, h]
  · refine ⟨{ V := 3, E := 2, adj := [[1], [0, 2], [1]] }, by decide, rfl, ?_, ?_, ?_, ?_⟩
    · decide
    · decide
    · decide
    · decide

/-- Witness for C5: a loader error (`InvalidFormat` for a negative vertex
count) propagates unchanged through `load`. -/
theorem C5_witness :
    Graph.load ["-1"] = Except.error Err.invalidFormat :=
  C5_load_contract.1 ["-1"] Err.invalidFormat (by decide)
